import Mathlib

/-!
Verification development for the ai-documenter core: the tool-augmented
agent runtime and the adaptive file-access layer.  Each definition is a
shallow embedding of the corresponding TypeScript function; strings are
modelled as Lean `String`s (JS strings restricted to the Unicode scalar
fragment), byte counts via an explicit UTF-8 encoder, machine numbers as
`Nat`/`Int`/`ℚ`, and the filesystem as an explicit in-memory tree or map
threaded through the operations.
-/

namespace AIDoc

/-! ## String helpers

Model of the JS string primitives used by the source
(`toLowerCase`, `includes`, `startsWith`, `split`), restricted to the
ASCII fragment the tools operate on (JS `toLowerCase` agrees with
per-character ASCII folding there). -/

/-- ASCII case folding of one character (model of JS `toLowerCase`). -/
def charToLower (c : Char) : Char :=
  if 'A' ≤ c ∧ c ≤ 'Z' then Char.ofNat (c.toNat + 32) else c

/-- Model of JS `String.prototype.toLowerCase` (per-character ASCII folding). -/
def strToLower (s : String) : String :=
  String.mk (s.data.map charToLower)

/-- Does list `l` start with `p`?  (model of JS `String.prototype.startsWith`). -/
def listStartsWith : List Char → List Char → Bool
  | _, [] => true
  | [], _ :: _ => false
  | a :: l, b :: p => a == b && listStartsWith l p

/-- Does `hay` contain `need` as a contiguous run?
(model of JS `String.prototype.includes`). -/
def listIncludes (hay need : List Char) : Bool :=
  match hay with
  | [] => listStartsWith [] need
  | _ :: rest => listStartsWith hay need || listIncludes rest need

/-- Split a character list at every separator character, keeping empty
segments (model of JS `String.prototype.split` with a character-class
regex). -/
def splitOnPred (p : Char → Bool) : List Char → List (List Char)
  | [] => [[]]
  | c :: rest =>
    let tail := splitOnPred p rest
    if p c then [] :: tail
    else
      match tail with
      | [] => [[c]]
      | w :: ws => (c :: w) :: ws

/-- The separator class of the word-boundary regex `/[\s\-_.]/` in
`calculateFuzzyScore`. -/
def isWordSeparator (c : Char) : Bool :=
  c == ' ' || c == '\t' || c == '\n' || c == '\r' || c == '-' || c == '_' || c == '.'

/-- UTF-8 encoding of one Unicode scalar value, as a byte list. -/
def charUtf8Bytes (c : Char) : List Nat :=
  let n := c.toNat
  if n < 0x80 then [n]
  else if n < 0x800 then [0xC0 + n / 64, 0x80 + n % 64]
  else if n < 0x10000 then [0xE0 + n / 4096, 0x80 + n / 64 % 64, 0x80 + n % 64]
  else [0xF0 + n / 262144, 0x80 + n / 4096 % 64, 0x80 + n / 64 % 64, 0x80 + n % 64]

/-- The UTF-8 byte sequence of a string (the on-disk / wire representation
of file contents and deltas). -/
def strBytes (s : String) : List Nat :=
  s.data.flatMap charUtf8Bytes

/-- Model of `Buffer.byteLength(s, 'utf8')`. -/
def byteLength (s : String) : Nat :=
  (strBytes s).length

/-! ## Path helpers (models of `node:path`) -/

/-- The final component of a path (model of `path.basename`). -/
def pathBasename (p : String) : String :=
  match (splitOnPred (· == '/') p.data).getLast? with
  | some cs => String.mk cs
  | none => ""

/-- Index (from the front) of the last `'.'` in a character list, if any. -/
def lastDotIdx (cs : List Char) : Option Nat :=
  (List.range cs.length).foldl
    (fun acc i => if cs.getD i ' ' == '.' then some i else acc) none

/-- Model of `path.extname`: the substring of the basename from its last
dot, or `""` when the basename has no dot or starts with its only dot. -/
def extname (p : String) : String :=
  let b := (pathBasename p).data
  match lastDotIdx b with
  | none => ""
  | some 0 => ""
  | some i => String.mk (b.drop i)

/-! ## `calculateFuzzyScore` (src/helpers/file-operations.ts)

The Levenshtein table `dp[i][j]` of the source satisfies the textbook
recurrence; `levDP` is that recurrence read off the two loops, and
`levenshteinDistance` is `dp[m][n]`. -/

/-- The entry `dp[i][j]` of the source's dynamic-programming table. -/
def levDP (s t : List Char) : Nat → Nat → Nat
  | 0, j => j
  | i + 1, 0 => i + 1
  | i + 1, j + 1 =>
    if s.getD i ' ' == t.getD j ' ' then levDP s t i j
    else
      min (levDP s t i (j + 1) + 1)
        (min (levDP s t (i + 1) j + 1) (levDP s t i j + 1))

/-- Model of `levenshteinDistance(str1, str2)`. -/
def levenshteinDistance (str1 str2 : List Char) : Nat :=
  levDP str1 str2 str1.length str2.length

/-- Number of query characters matched in order while scanning the target
once (the `sequenceBonus` counting loop). -/
def seqMatchCount : List Char → List Char → Nat
  | _, [] => 0
  | [], _ :: _ => 0
  | tc :: ts, qc :: qs =>
    if tc == qc then 1 + seqMatchCount ts qs else seqMatchCount ts (qc :: qs)

/-- Model of `calculateFuzzyScore(query, target, caseSensitive)`. -/
def calculateFuzzyScore (query target : String) (caseSensitive : Bool) : ℚ :=
  let q := if caseSensitive then query else strToLower query
  let t := if caseSensitive then target else strToLower target
  if q = t then 1.0
  else if listIncludes t.data q.data then
    let ratio : ℚ := (q.length : ℚ) / (t.length : ℚ)
    0.9 * ratio
  else
    let maxLen := max q.length t.length
    if maxLen = 0 then 1.0
    else
      let distance := levenshteinDistance q.data t.data
      let similarity : ℚ := 1 - (distance : ℚ) / (maxLen : ℚ)
      let sequenceBonus : ℚ := (seqMatchCount t.data q.data : ℚ) * 0.1
      let words := splitOnPred isWordSeparator t.data
      let boundaryBonus : ℚ :=
        if words.any (fun w => listStartsWith w (q.data.take (min 3 q.length)))
        then 0.2 else 0
      min 1.0 (similarity + sequenceBonus + boundaryBonus)

/-! ## AdaptiveFileCache (src/classes/cache.ts)

A JS `Map` is modelled as an association list in insertion order (head =
oldest / least recently inserted).  Timestamps are integer milliseconds;
memory-pressure readings and the adaptive configuration are passed in
explicitly (the source reads them from `os`/`FILE_CONFIG`). -/

/-- One cache entry, as stored by `AdaptiveFileCache`. -/
structure CacheEntry where
  content : String
  timestamp : Int
  size : Nat
  accessCount : Nat
  deriving Repr, DecidableEq

/-- First value stored under a key (JS `Map.prototype.get`; keys are unique). -/
def mapGet (m : List (String × CacheEntry)) (k : String) : Option CacheEntry :=
  match m.find? (fun e => e.1 == k) with
  | some e => some e.2
  | none => none

/-- Remove the entry stored under a key (JS `Map.prototype.delete`). -/
def mapDelete (m : List (String × CacheEntry)) (k : String) : List (String × CacheEntry) :=
  match m with
  | [] => []
  | e :: rest => if e.1 == k then rest else e :: mapDelete rest k

/-- JS `Map.prototype.set`: replace in place when the key exists, else
append at the most-recently-inserted end. -/
def mapSetJS (m : List (String × CacheEntry)) (k : String) (v : CacheEntry) :
    List (String × CacheEntry) :=
  match m with
  | [] => [(k, v)]
  | e :: rest => if e.1 == k then (k, v) :: rest else e :: mapSetJS rest k v

/-- The eviction score computed inside `emergencyCleanup`:
`accessCount * 0.7 + (Date.now() - timestamp) * 0.3`. -/
def cleanupScore (now : Int) (e : CacheEntry) : ℚ :=
  (e.accessCount : ℚ) * 0.7 + ((now - e.timestamp : Int) : ℚ) * 0.3

/-- Place `x` before the first element of strictly greater-or-equal score
(stable insertion). -/
def insertByScore (score : CacheEntry → ℚ) (x : String × CacheEntry) :
    List (String × CacheEntry) → List (String × CacheEntry)
  | [] => [x]
  | y :: ys =>
    if score x.2 ≤ score y.2 then x :: y :: ys else y :: insertByScore score x ys

/-- Stable ascending sort by score (model of JS `Array.prototype.sort`
with the comparator `scoreA - scoreB`, which is stable). -/
def sortByScore (score : CacheEntry → ℚ) : List (String × CacheEntry) →
    List (String × CacheEntry)
  | [] => []
  | x :: xs => insertByScore score x (sortByScore score xs)

/-- The in-memory cache state (`maxSize`/`ttl` are the constructor fields). -/
structure MCache where
  entries : List (String × CacheEntry)
  maxSize : Nat
  ttl : Nat
  deriving Repr, DecidableEq

/-- The slice of `FILE_CONFIG` the cache consults. -/
structure MCacheConfig where
  maxFileSize : ℚ
  memoryPressureThreshold : ℚ
  deriving Repr, DecidableEq

/-- Model of `AdaptiveFileCache.emergencyCleanup`: when more than half the
capacity is occupied, sort entries by `cleanupScore` ascending and delete
the lowest-scored ones until the size is `floor(maxSize * 0.5)`. -/
def emergencyCleanup (now : Int) (c : MCache) : MCache :=
  let targetSize := c.maxSize / 2
  if c.entries.length ≤ targetSize then c
  else
    let sorted := sortByScore (cleanupScore now) c.entries
    let toRemove := sorted.take (c.entries.length - targetSize)
    { c with entries := toRemove.foldl (fun m e => mapDelete m e.1) c.entries }

/-- Model of `AdaptiveFileCache.get(filePath, fileSize, lastModified)`:
returns the cached content and the updated cache state. -/
def cacheGet (c : MCache) (filePath : String) (fileSize : Nat) (now : Int) :
    Option String × MCache :=
  match mapGet c.entries filePath with
  | none => (none, c)
  | some cached =>
    if now - cached.timestamp > (c.ttl : Int) ∨ cached.size ≠ fileSize then
      (none, { c with entries := mapDelete c.entries filePath })
    else
      let updated : CacheEntry :=
        { cached with timestamp := now, accessCount := cached.accessCount + 1 }
      (some cached.content,
        { c with entries := mapSetJS (mapDelete c.entries filePath) filePath updated })

/-- The oldest-first eviction loop of `set`:
`while (this.cache.size >= this.maxSize) delete firstKey`. -/
def evictWhileFull (maxSize : Nat) : List (String × CacheEntry) →
    List (String × CacheEntry)
  | [] => []
  | e :: rest =>
    if (e :: rest).length ≥ maxSize then evictWhileFull maxSize rest else e :: rest

/-- Model of `AdaptiveFileCache.set(filePath, content, fileSize)`;
`memoryPressure` is the `1 - os.freemem()/os.totalmem()` reading taken at
the start of the call. -/
def cacheSet (cfg : MCacheConfig) (c : MCache) (filePath content : String)
    (fileSize : Nat) (now : Int) (memoryPressure : ℚ) : MCache :=
  let contentSize := byteLength content
  let c1 := if memoryPressure > cfg.memoryPressureThreshold then emergencyCleanup now c else c
  let c2 := { c1 with entries := evictWhileFull c1.maxSize c1.entries }
  if (contentSize : ℚ) > cfg.maxFileSize * 0.5 ∧ memoryPressure > 0.6 then c2
  else
    let entry : CacheEntry :=
      { content := content, timestamp := now, size := fileSize, accessCount := 1 }
    { c2 with entries := mapSetJS c2.entries filePath entry }

/-- Model of `AdaptiveFileCache.delete(filePath)` (ignoring the
`totalMemoryUsage` bookkeeping counter, which no behaviour reads). -/
def cacheDelete (c : MCache) (filePath : String) : MCache :=
  { c with entries := mapDelete c.entries filePath }

/-! ## Filesystem model

Directory trees as an inductive; file contents as strings whose on-disk
bytes are their UTF-8 encoding (`strBytes`). -/

/-- A filesystem entry: a file with its content, or a directory. -/
inductive FsEntry where
  | file (name : String) (content : String)
  | dir (name : String) (entries : List FsEntry)
  deriving Repr

/-- Name of an entry (the `readdir` dirent name). -/
def FsEntry.name : FsEntry → String
  | .file n _ => n
  | .dir n _ => n

/-! ## `isLikelyBinary` (src/helpers/file-operations.ts) -/

/-- The fixed extension denylist of `isLikelyBinary`. -/
def binaryExtensions : List String :=
  [".exe", ".dll", ".so", ".dylib", ".bin", ".dat",
   ".jpg", ".jpeg", ".png", ".gif", ".webp", ".bmp", ".ico",
   ".mp3", ".mp4", ".avi", ".mov", ".wav", ".flac",
   ".zip", ".tar", ".gz", ".rar", ".7z",
   ".pdf", ".doc", ".docx", ".xls", ".xlsx", ".ppt", ".pptx",
   ".woff", ".woff2", ".ttf", ".otf", ".eot"]

/-- Model of `isLikelyBinary(filePath)` for a file whose stat succeeds and
whose on-disk bytes are `strBytes content`: size over 100 MB, denylisted
extension, or a null byte in the first `min(1024, size)` bytes. -/
def isLikelyBinary (filePath : String) (content : String) : Bool :=
  let size := (strBytes content).length
  if size > 100 * 1024 * 1024 then true
  else if binaryExtensions.contains (strToLower (extname filePath)) then true
  else if size > 0 then
    let sampleSize := min 1024 size
    ((strBytes content).take sampleSize).any (· == 0)
  else false

/-! ## `traverseDirectory` (src/helpers/file-operations.ts)

The visitor record mirrors `DirectoryVisitor`; `visitFile` additionally
receives the file's content (standing for what `fs` lets the callback read
at that path), and callbacks are pure state transformers returning the JS
callback's `boolean | void` result as an `Option Bool`. -/

/-- Model of `DirectoryVisitor`. -/
structure MVisitor (σ : Type) where
  visitFile : Option (σ → String → String → String → σ × Option Bool)
  visitDirectory : Option (σ → String → String → σ × Option Bool)
  shouldEnterDirectory : Option (String → String → Bool)
  maxDepth : Option Nat
  includeHidden : Option Bool
  fileExtensions : Option (List String)

/-- `const maxDepth = visitor.maxDepth || 10`: in JS `0` is falsy, so both
an absent bound and an explicit `0` yield the default `10`. -/
def effectiveMaxDepth (m : Option Nat) : Nat :=
  match m with
  | some d => if d = 0 then 10 else d
  | none => 10

/-- `const includeHidden = visitor.includeHidden || false`. -/
def effectiveIncludeHidden (b : Option Bool) : Bool :=
  b.getD false

/-- `path.relative(root, path.join(cur, name))` along the walk. -/
def joinRel (rel name : String) : String :=
  if rel = "" then name else rel ++ "/" ++ name

/-- The `for (const item of items)` loop body of `traverseRecursive`.
`depth` is the depth of the directory being listed; entering a child
directory re-checks `depth > maxDepth` at the head of the recursive call.
A callback returning `false` stops the current directory's loop (the
source's `return` leaves only the current `traverseRecursive` frame). -/
def travItems {σ : Type} (vf : Option (σ → String → String → String → σ × Option Bool))
    (vd : Option (σ → String → String → σ × Option Bool))
    (se : Option (String → String → Bool)) (fexts : Option (List String))
    (maxD : Nat) (incH : Bool)
    (depth : Nat) (curPath curRel : String) : List FsEntry → σ → σ
  | [], s => s
  | .file name content :: rest, s =>
    if !incH && listStartsWith name.data ['.'] then
      travItems vf vd se fexts maxD incH depth curPath curRel rest s
    else if (match fexts with
             | some exts => exts.length > 0 && !exts.contains (extname name)
             | none => false) then
      travItems vf vd se fexts maxD incH depth curPath curRel rest s
    else
      match vf with
      | none => travItems vf vd se fexts maxD incH depth curPath curRel rest s
      | some f =>
        let r := f s (curPath ++ "/" ++ name) (joinRel curRel name) content
        if r.2 == some false then r.1
        else travItems vf vd se fexts maxD incH depth curPath curRel rest r.1
  | .dir name entries :: rest, s =>
    if !incH && listStartsWith name.data ['.'] then
      travItems vf vd se fexts maxD incH depth curPath curRel rest s
    else
      let r := match vd with
        | none => (s, (none : Option Bool))
        | some f => f s (curPath ++ "/" ++ name) (joinRel curRel name)
      if r.2 == some false then r.1
      else
        let shouldEnter := match se with
          | none => true
          | some g => g (curPath ++ "/" ++ name) (joinRel curRel name)
        let s2 := if shouldEnter then
            (if depth + 1 > maxD then r.1
             else travItems vf vd se fexts maxD incH (depth + 1) (curPath ++ "/" ++ name)
               (joinRel curRel name) entries r.1)
          else r.1
        travItems vf vd se fexts maxD incH depth curPath curRel rest s2

/-- Model of `traverseDirectory(rootPath, visitor)` run from state `s`;
the root must be a directory (`readdir` on a file throws, which the
source's catch swallows, leaving the state unchanged). -/
def traverseDirectory {σ : Type} (V : MVisitor σ) (root : FsEntry)
    (rootPath : String) (s : σ) : σ :=
  let maxD := effectiveMaxDepth V.maxDepth
  let incH := effectiveIncludeHidden V.includeHidden
  match root with
  | .file _ _ => s
  | .dir _ entries =>
    if 0 > maxD then s
    else travItems V.visitFile V.visitDirectory V.shouldEnterDirectory V.fileExtensions
      maxD incH 0 rootPath "" entries s

/-- A visitor that records the relative path of every visited file, with a
given `maxDepth` and no other callbacks. -/
def collectFilesVisitor (maxDepth : Option Nat) : MVisitor (List String) :=
  { visitFile := some (fun s _ rel _ => (s ++ [rel], none)),
    visitDirectory := none,
    shouldEnterDirectory := none,
    maxDepth := maxDepth,
    includeHidden := none,
    fileExtensions := none }

/-- The relative paths of the files `traverseDirectory` hands to the file
visitor, in visit order. -/
def visitedFiles (root : FsEntry) (maxDepth : Option Nat) : List String :=
  traverseDirectory (collectFilesVisitor maxDepth) root "/root" []

/-! ## `writeFileOptimized` (src/helpers/file-operations.ts)

The flat filesystem view used by the write path: a map from resolved path
to file record (parent-directory creation is a no-op here). -/

/-- A plain file on disk. -/
structure MFile where
  content : String
  mtime : Int
  birthtime : Int
  deriving Repr, DecidableEq

/-- The flat file map. -/
abbrev MFS := List (String × MFile)

/-- First file stored at a path. -/
def fsLookup (fs : MFS) (p : String) : Option MFile :=
  match fs.find? (fun e => e.1 == p) with
  | some e => some e.2
  | none => none

/-- Store a file at a path: replace in place or append. -/
def fsSet (fs : MFS) (p : String) (f : MFile) : MFS :=
  match fs with
  | [] => [(p, f)]
  | e :: rest => if e.1 == p then (p, f) :: rest else e :: fsSet rest p f

/-- The discriminated result of `writeFileOptimized`. -/
inductive MWriteResult where
  | ok (file_path : String) (size : Nat) (created : Int) (last_modified : Int)
      (message : String)
  | failure (file_path : String) (error : String)
  deriving Repr, DecidableEq

/-- Model of `writeFileOptimized(filePath, content, overwrite, createBackup)`
at time `now`, threading the filesystem and the shared file cache.
The underlying `fs` primitives of the model always succeed, so the
function is total: the only non-exceptional failure is the
existing-file/no-overwrite branch, returned as a structured result. -/
def writeFileOptimized (fs : MFS) (cache : MCache) (filePath content : String)
    (overwrite createBackup : Bool) (now : Int) : MWriteResult × MFS × MCache :=
  let existing := fsLookup fs filePath
  if existing.isSome ∧ ¬overwrite then
    (.failure filePath "File already exists and overwrite is set to false", fs, cache)
  else
    let fs1 := match existing, createBackup with
      | some old, true => fsSet fs (filePath ++ ".backup." ++ toString now) old
      | _, _ => fs
    let newFile : MFile :=
      { content := content, mtime := now,
        birthtime := match existing with
          | some old => old.birthtime
          | none => now }
    let fs2 := fsSet fs1 filePath newFile
    let cache2 := cacheDelete cache filePath
    (.ok filePath (byteLength content) newFile.birthtime now
      (if existing.isSome then "File overwritten successfully"
       else "File created successfully"), fs2, cache2)

/-! ## `search_file_content` tool (src/tools/search-file-content.ts)

The escaped search term with the `g`/`gi` flags and per-line
`exec` + `lastIndex = 0` reduce to: first (case-folded when insensitive)
occurrence of the literal term in each line. -/

/-- The whitespace class trimmed by JS `String.prototype.trim`. -/
def jsWhitespaceChar (c : Char) : Bool :=
  c == ' ' || c == '\t' || c == '\n' || c == '\r' ||
    c == Char.ofNat 11 || c == Char.ofNat 12

/-- Model of JS `String.prototype.trim`. -/
def strTrim (s : String) : String :=
  String.mk (((s.data.dropWhile jsWhitespaceChar).reverse.dropWhile jsWhitespaceChar).reverse)

/-- Position of the first occurrence of `t` in the remaining characters,
counting from `i`. -/
def findSubAux (t : List Char) : List Char → Nat → Option Nat
  | [], i => if listStartsWith [] t then some i else none
  | c :: r, i =>
    if listStartsWith (c :: r) t then some i else findSubAux t r (i + 1)

/-- Model of `searchRegex.exec(line)?.index` for the escaped search term:
the index of the first occurrence, case-folded unless `caseSensitive`. -/
def firstMatchPos (caseSensitive : Bool) (term line : String) : Option Nat :=
  let t := if caseSensitive then term else strToLower term
  let l := if caseSensitive then line else strToLower line
  findSubAux t.data l.data 0

/-- One per-line match record of the tool result. -/
structure MSearchMatch where
  line_number : Nat
  line_content : String
  match_position : Nat
  deriving Repr, DecidableEq

/-- All matching lines of a file's content, in line order (the
`lines.forEach` accumulation before the `slice(0, 5)`). -/
def fileMatches (caseSensitive : Bool) (term content : String) : List MSearchMatch :=
  let lines := (splitOnPred (· == '\n') content.data).map String.mk
  lines.enum.filterMap fun p =>
    match firstMatchPos caseSensitive term p.2 with
    | some pos =>
      some { line_number := p.1 + 1, line_content := strTrim p.2, match_position := pos }
    | none => none

/-- One per-file entry of the tool's `results` array. -/
structure MFileSearchResult where
  file_path : String
  relative_path : String
  «matches» : List MSearchMatch
  total_matches : Nat
  deriving Repr, DecidableEq

/-- Model of the tool's `visitFile` callback (part_003 lines 58-103):
stop once `max_results` files hold matches, skip binary and empty files
(`!fileResult.content` is truthy for `""`), otherwise collect the file
with its first five matches and the full match count. -/
def searchVisitFile (term : String) (caseSensitive : Bool) (maxResults : Nat)
    (results : List MFileSearchResult) (filePath relPath content : String) :
    List MFileSearchResult × Option Bool :=
  if results.length ≥ maxResults then (results, some false)
  else if isLikelyBinary filePath content then (results, none)
  else if content = "" then (results, none)
  else
    let ms := fileMatches caseSensitive term content
    if ms.length > 0 then
      (results ++ [{ file_path := filePath, relative_path := relPath,
                     «matches» := ms.take 5, total_matches := ms.length }], none)
    else (results, none)

/-- Model of `searchFileContentTool.invoke` past validation: the `results`
array built by traversing the directory tree with the visitor above
(`maxDepth: 10`, the optional extension filter, hidden entries skipped). -/
def searchFileContentResults (tree : FsEntry) (rootPath term : String)
    (fileExtensions : Option (List String)) (maxResults : Nat)
    (caseSensitive : Bool) : List MFileSearchResult :=
  traverseDirectory
    { visitFile := some (fun s p rel c => searchVisitFile term caseSensitive maxResults s p rel c),
      visitDirectory := none,
      shouldEnterDirectory := none,
      maxDepth := some 10,
      includeHidden := none,
      fileExtensions := fileExtensions }
    tree rootPath []

/-! ## JSON values (the wire format of the tool boundary)

`Json` models the JS values handed to `JSON.stringify` /
produced by `JSON.parse`; `jsonStringify` mirrors `JSON.stringify` and
`jsonParse` mirrors `JSON.parse` (numbers in the forms the tools emit cover
every literal the tools emit). -/

/-- A JSON value. -/
inductive Json where
  | null
  | bool (b : Bool)
  | num (q : ℚ)
  | str (s : String)
  | arr (items : List Json)
  | obj (fields : List (String × Json))
  deriving Repr

/-- Hex digit for string escapes. -/
def hexDigit (n : Nat) : Char :=
  if n < 10 then Char.ofNat ('0'.toNat + n) else Char.ofNat ('a'.toNat + n - 10)

/-- JSON escaping of one character (as `JSON.stringify` does). -/
def escapeJsonChar (c : Char) : List Char :=
  if c == '"' then ['\\', '"']
  else if c == '\\' then ['\\', '\\']
  else if c == '\n' then ['\\', 'n']
  else if c == '\r' then ['\\', 'r']
  else if c == '\t' then ['\\', 't']
  else if c == Char.ofNat 8 then ['\\', 'b']
  else if c == Char.ofNat 12 then ['\\', 'f']
  else if c.toNat < 32 then
    ['\\', 'u', '0', '0', hexDigit (c.toNat / 16), hexDigit (c.toNat % 16)]
  else [c]

/-- JSON string-body escaping. -/
def jsonEscape (s : String) : String :=
  String.mk (s.data.flatMap escapeJsonChar)

/-- Smallest `k ≤ 10` with `den ∣ 10^k`, if any. -/
def pow10Exp (den : Nat) : Option Nat :=
  (List.range 11).find? (fun k => 10 ^ k % den = 0)

/-- Left-pad a numeral with zeros to `k` digits. -/
def padZeros (k : Nat) (s : String) : String :=
  String.mk (List.replicate (k - s.length) '0') ++ s

/-- Decimal rendering of the rationals the tools serialise (integers, and
finite decimal fractions). -/
def jsonNumString (q : ℚ) : String :=
  match pow10Exp q.den with
  | some 0 => toString q.num
  | some (k + 1) =>
    let scaled := q.num * ((10 ^ (k + 1) : Nat) / q.den : Nat)
    let sign := if scaled < 0 then "-" else ""
    let a := scaled.natAbs
    sign ++ toString (a / 10 ^ (k + 1)) ++ "." ++ padZeros (k + 1) (toString (a % 10 ^ (k + 1)))
  | none => toString q.num ++ "/" ++ toString q.den

mutual

/-- Model of `JSON.stringify`. -/
def jsonStringify : Json → String
  | .null => "null"
  | .bool true => "true"
  | .bool false => "false"
  | .num q => jsonNumString q
  | .str s => "\"" ++ jsonEscape s ++ "\""
  | .arr items => "[" ++ String.intercalate "," (jsonStringifyList items) ++ "]"
  | .obj fields =>
    "\x7b" ++ String.intercalate "," (jsonStringifyFields fields) ++ "\x7d"

/-- Serialised array elements, in order. -/
def jsonStringifyList : List Json → List String
  | [] => []
  | j :: js => jsonStringify j :: jsonStringifyList js

/-- Serialised `"key":value` members, in order. -/
def jsonStringifyFields : List (String × Json) → List String
  | [] => []
  | f :: fs => ("\"" ++ jsonEscape f.1 ++ "\":" ++ jsonStringify f.2) :: jsonStringifyFields fs

end

/-! ### `JSON.parse` (recursive-descent model with a character-count fuel;
it accepts a harmless superset of JSON numerals — leading zeros — and
covers the BMP scalar fragment of string escapes) -/

/-- JSON whitespace. -/
def skipWs (cs : List Char) : List Char :=
  cs.dropWhile (fun c => c == ' ' || c == '\t' || c == '\n' || c == '\r')

/-- Hex digit value. -/
def hexVal (c : Char) : Option Nat :=
  if '0' ≤ c ∧ c ≤ '9' then some (c.toNat - '0'.toNat)
  else if 'a' ≤ c ∧ c ≤ 'f' then some (c.toNat - 'a'.toNat + 10)
  else if 'A' ≤ c ∧ c ≤ 'F' then some (c.toNat - 'A'.toNat + 10)
  else none

/-- Parse a JSON string body after the opening quote, accumulating in
reverse. -/
def parseStringAux : List Char → List Char → Option (String × List Char)
  | _, [] => none
  | acc, c :: rest =>
    if c == '"' then some (String.mk acc.reverse, rest)
    else if c == '\\' then
      match rest with
      | [] => none
      | e :: rest2 =>
        if e == '"' then parseStringAux ('"' :: acc) rest2
        else if e == '\\' then parseStringAux ('\\' :: acc) rest2
        else if e == '/' then parseStringAux ('/' :: acc) rest2
        else if e == 'b' then parseStringAux (Char.ofNat 8 :: acc) rest2
        else if e == 'f' then parseStringAux (Char.ofNat 12 :: acc) rest2
        else if e == 'n' then parseStringAux ('\n' :: acc) rest2
        else if e == 'r' then parseStringAux ('\r' :: acc) rest2
        else if e == 't' then parseStringAux ('\t' :: acc) rest2
        else if e == 'u' then
          match rest2 with
          | h1 :: h2 :: h3 :: h4 :: rest3 =>
            match hexVal h1, hexVal h2, hexVal h3, hexVal h4 with
            | some a, some b, some c2, some d =>
              let n := ((a * 16 + b) * 16 + c2) * 16 + d
              if 0xD800 ≤ n ∧ n < 0xE000 then none
              else parseStringAux (Char.ofNat n :: acc) rest3
            | _, _, _, _ => none
          | _ => none
        else none
    else parseStringAux (c :: acc) rest

/-- Decimal digit value. -/
def digitVal (c : Char) : Option Nat :=
  if '0' ≤ c ∧ c ≤ '9' then some (c.toNat - '0'.toNat) else none

/-- Longest leading run of digits. -/
def takeDigits : List Char → List Nat × List Char
  | [] => ([], [])
  | c :: rest =>
    match digitVal c with
    | some d =>
      let p := takeDigits rest
      (d :: p.1, p.2)
    | none => ([], c :: rest)

/-- Value of a digit run. -/
def digitsVal (ds : List Nat) : Nat :=
  ds.foldl (fun a d => a * 10 + d) 0

/-- Parse a JSON numeral into an exact rational. -/
def parseNumber (cs : List Char) : Option (ℚ × List Char) :=
  let p0 := match cs with
    | '-' :: r => (true, r)
    | _ => (false, cs)
  let ds := takeDigits p0.2
  if ds.1.isEmpty then none
  else
    let base : ℚ := (digitsVal ds.1 : ℚ)
    let afterFrac : Option (ℚ × List Char) :=
      match ds.2 with
      | '.' :: r =>
        let fs := takeDigits r
        if fs.1.isEmpty then none
        else some (base + (digitsVal fs.1 : ℚ) / ((10 : ℚ) ^ fs.1.length), fs.2)
      | _ => some (base, ds.2)
    match afterFrac with
    | none => none
    | some (v, cs3) =>
      let afterExp : Option (ℚ × List Char) :=
        match cs3 with
        | e :: r =>
          if e == 'e' || e == 'E' then
            let sp : Int × List Char := match r with
              | '+' :: rr => (1, rr)
              | '-' :: rr => (-1, rr)
              | _ => (1, r)
            let es := takeDigits sp.2
            if es.1.isEmpty then none
            else
              let k := digitsVal es.1
              some (if sp.1 < 0 then v / (10 : ℚ) ^ k else v * (10 : ℚ) ^ k, es.2)
          else some (v, cs3)
        | [] => some (v, cs3)
      afterExp.map (fun p => (if p0.1 then -p.1 else p.1, p.2))

mutual

/-- Parse one JSON value (fuel bounds the recursion depth; `jsonParse`
supplies more fuel than any input can consume). -/
def parseValue : Nat → List Char → Option (Json × List Char)
  | 0, _ => none
  | fuel + 1, cs =>
    match skipWs cs with
    | [] => none
    | c :: rest =>
      if c == '"' then (parseStringAux [] rest).map (fun p => (.str p.1, p.2))
      else if c == '\x7b' then
        match skipWs rest with
        | '\x7d' :: r2 => some (.obj [], r2)
        | r2 => (parseMembers fuel r2 []).map (fun p => (.obj p.1, p.2))
      else if c == '[' then
        match skipWs rest with
        | ']' :: r2 => some (.arr [], r2)
        | r2 => (parseElems fuel r2 []).map (fun p => (.arr p.1, p.2))
      else if listStartsWith (c :: rest) ['t', 'r', 'u', 'e'] then
        some (.bool true, (c :: rest).drop 4)
      else if listStartsWith (c :: rest) ['f', 'a', 'l', 's', 'e'] then
        some (.bool false, (c :: rest).drop 5)
      else if listStartsWith (c :: rest) ['n', 'u', 'l', 'l'] then
        some (.null, (c :: rest).drop 4)
      else (parseNumber (c :: rest)).map (fun p => (.num p.1, p.2))

/-- Parse the members of a non-empty JSON object. -/
def parseMembers : Nat → List Char → List (String × Json) →
    Option (List (String × Json) × List Char)
  | 0, _, _ => none
  | fuel + 1, cs, acc =>
    match skipWs cs with
    | '"' :: r =>
      match parseStringAux [] r with
      | none => none
      | some (key, r2) =>
        match skipWs r2 with
        | ':' :: r3 =>
          match parseValue fuel r3 with
          | none => none
          | some (v, r4) =>
            match skipWs r4 with
            | ',' :: r5 => parseMembers fuel r5 (acc ++ [(key, v)])
            | '\x7d' :: r5 => some (acc ++ [(key, v)], r5)
            | _ => none
        | _ => none
    | _ => none

/-- Parse the elements of a non-empty JSON array. -/
def parseElems : Nat → List Char → List Json → Option (List Json × List Char)
  | 0, _, _ => none
  | fuel + 1, cs, acc =>
    match parseValue fuel cs with
    | none => none
    | some (v, r) =>
      match skipWs r with
      | ',' :: r2 => parseElems fuel r2 (acc ++ [v])
      | ']' :: r2 => some (acc ++ [v], r2)
      | _ => none

end

/-- Model of `JSON.parse`: `none` models a thrown `SyntaxError`. -/
def jsonParse (s : String) : Option Json :=
  match parseValue (s.length + 1) s.data with
  | some (v, rest) => if (skipWs rest).isEmpty then some v else none
  | none => none

/-! ### Tool-input validation (src/helpers/validation.ts)

`z.object` parses an object, checks the declared keys and silently strips
undeclared ones; `JSON.parse` keeps the last of duplicate keys, which the
lookup mirrors. -/

/-- Last-wins field lookup on a parsed JSON object. -/
def jsonObjLookup (fields : List (String × Json)) (k : String) : Option Json :=
  (fields.reverse.find? (fun f => f.1 == k)).map (·.2)

/-- Model of `ReadFileInputSchema.parse`: requires a string `file_path` of
length at least 1; all other properties are ignored (stripped). -/
def readFileSchemaParse : Json → Except String String
  | .obj fields =>
    match jsonObjLookup fields "file_path" with
    | some (.str s) =>
      if s.length ≥ 1 then .ok s
      else .error "file_path: File path cannot be empty"
    | some _ => .error "file_path: Expected string, received other"
    | none => .error "file_path: Required"
  | _ => .error "Expected object, received other"

/-- Model of `validateToolInput(ReadFileInputSchema, input, 'read_file')`:
parse the JSON text, then validate; both failure modes are rethrown as
`Error`s whose messages the tool's catch serialises. -/
def validateReadFileInput (input : String) : Except String String :=
  match jsonParse input with
  | none => .error "Invalid JSON input for tool read_file"
  | some v =>
    match readFileSchemaParse v with
    | .ok s => .ok s
    | .error e => .error ("Invalid input for tool read_file: " ++ e)

/-! ## `readFileOptimized` and the `read_file` tool

The world threaded through a tool invocation: the flat file map, the
shared cache, and the adaptive-configuration / memory-pressure readings
the source obtains from `FILE_CONFIG` and `os`. -/

/-- The state a tool invocation reads and updates. -/
structure MWorld where
  fs : MFS
  cache : MCache
  maxFileSize : ℚ
  memoryPressure : ℚ
  memoryPressureThreshold : ℚ

/-- The success payload of `readFileOptimized`. -/
structure MFileContent where
  file_path : String
  size : Nat
  content : String
  last_modified : Int
  deriving Repr, DecidableEq

/-- Model of `streamLargeFile`: after every chunk the memory-pressure and
runaway-size guards run, so the read aborts exactly when some data
arrives under high pressure, or when the byte total passes
`MAX_FILE_SIZE * 2`; otherwise the chunks concatenate back to the
content. -/
def streamLargeFile (w : MWorld) (content : String) : Except String String :=
  let size := byteLength content
  if size > 0 ∧ w.memoryPressure > w.memoryPressureThreshold then
    .error "File streaming aborted due to high memory pressure"
  else if (size : ℚ) > w.maxFileSize * 2 then
    .error "File too large for streaming"
  else .ok content

/-- Model of `readFileOptimized(filePath)` at time `now`: stat, cache
probe, then whole-file read (cached) or bounded streaming; a missing file
or an aborted stream raises a `FileOperationError`, modelled as
`Except.error` of its message prefix. -/
def readFileOptimized (w : MWorld) (filePath : String) (now : Int) :
    Except String MFileContent × MWorld :=
  match fsLookup w.fs filePath with
  | none => (.error "Failed to read file: ENOENT: no such file or directory", w)
  | some f =>
    let size := byteLength f.content
    let probe := cacheGet w.cache filePath size now
    match probe.1 with
    | some cached =>
      (.ok { file_path := filePath, size := size, content := cached,
             last_modified := f.mtime },
       { w with cache := probe.2 })
    | none =>
      if (size : ℚ) > w.maxFileSize then
        match streamLargeFile w f.content with
        | .ok content =>
          (.ok { file_path := filePath, size := size, content := content,
                 last_modified := f.mtime },
           { w with cache := probe.2 })
        | .error e => (.error ("Failed to read file: " ++ e), { w with cache := probe.2 })
      else
        let cache2 := cacheSet
          { maxFileSize := w.maxFileSize,
            memoryPressureThreshold := w.memoryPressureThreshold }
          probe.2 filePath f.content size now w.memoryPressure
        (.ok { file_path := filePath, size := size, content := f.content,
               last_modified := f.mtime },
         { w with cache := cache2 })

/-- Model of `readFileTool.invoke(null, input)` at time `now`: validate,
screen binaries, read, and serialise; every path ends in
`JSON.stringify` of a result object, the catch converting thrown errors
into `{success:false, file_path, error}`. -/
def readFileInvoke (w : MWorld) (now : Int) (input : String) : String × MWorld :=
  match validateReadFileInput input with
  | .error e =>
    (jsonStringify (.obj [("success", .bool false), ("file_path", .str "unknown"),
      ("error", .str e)]), w)
  | .ok fp =>
    let isBin := match fsLookup w.fs fp with
      | some f => isLikelyBinary fp f.content
      | none => false
    if isBin then
      (jsonStringify (.obj [("success", .bool false), ("file_path", .str fp),
        ("error", .str "File appears to be binary and cannot be read as text")]), w)
    else
      match readFileOptimized w fp now with
      | (.ok r, w2) =>
        (jsonStringify (.obj [("success", .bool true), ("file_path", .str r.file_path),
          ("size", .num (r.size : ℚ)), ("content", .str r.content),
          ("last_modified", .str (toString r.last_modified))]), w2)
      | (.error e, w2) =>
        (jsonStringify (.obj [("success", .bool false), ("file_path", .str fp),
          ("error", .str e)]), w2)

/-! ## `Agent.executeToolCalls` (src/classes/agent.ts)

Tools are records with a name and an effectful `invoke`; a thrown
exception is `Except.error` of its message (`getErrorMessage`). -/

/-- A fully-accumulated model-requested tool call. -/
structure MToolCall where
  id : String
  name : String
  args : String
  deriving Repr, DecidableEq

/-- One entry of the `ToolExecutionResult` array. -/
structure MToolExecutionResult where
  toolCallId : String
  success : Bool
  response : String
  error : Option String
  deriving Repr, DecidableEq

/-- A registered tool as the agent sees it. -/
structure MTool (ω : Type) where
  name : String
  invoke : ω → String → Except String String × ω

/-- The body of the `for (const toolCall of toolCalls)` loop: look the
tool up by name, run it, and convert unknown names and thrown exceptions
into structured error results. -/
def execOneToolCall {ω : Type} (tools : List (MTool ω)) (w : ω) (call : MToolCall) :
    MToolExecutionResult × ω :=
  match tools.find? (fun t => t.name == call.name) with
  | some tool =>
    match tool.invoke w call.args with
    | (.ok resp, w2) =>
      ({ toolCallId := call.id, success := true, response := resp, error := none }, w2)
    | (.error e, w2) =>
      ({ toolCallId := call.id, success := false,
         response := jsonStringify (.obj [("success", .bool false),
           ("error", .str ("Tool execution failed: " ++ e))]),
         error := some e }, w2)
  | none =>
    ({ toolCallId := call.id, success := false,
       response := jsonStringify (.obj [("success", .bool false),
         ("error", .str ("Unknown tool: " ++ call.name))]),
       error := some ("Unknown tool: " ++ call.name) }, w)

/-- Model of `Agent.executeToolCalls`: the calls run one at a time, in
order, each against the world state its predecessor left behind. -/
def executeToolCalls {ω : Type} (tools : List (MTool ω)) :
    ω → List MToolCall → List MToolExecutionResult × ω
  | w, [] => ([], w)
  | w, call :: rest =>
    let r := execOneToolCall tools w call
    let p := executeToolCalls tools r.2 rest
    (r.1 :: p.1, p.2)

/-! ## `Agent.processStream` (src/classes/agent.ts)

Chunks, stream events and the per-stream processor state; the model
covers one model response (the `finish_reason: 'tool_calls'` hand-off
into a follow-up stream is the boundary of this embedding). -/

/-- One `tool_calls` fragment of a streamed delta. -/
structure MToolCallDelta where
  index : Option Nat
  id : Option String
  name : Option String
  args : Option String
  deriving Repr, DecidableEq

/-- One `ChatCompletionChunk` delta as the processor consumes it. -/
structure MChunk where
  content : Option String
  toolCalls : List MToolCallDelta
  finishReason : Option String
  deriving Repr, DecidableEq

/-- The events `processStream` yields. -/
inductive MStreamEvent where
  | textDelta (delta : String)
  | toolCallItem (name : String)
  | toolCallOutputItem
  deriving Repr, DecidableEq

/-- `StreamProcessorState` (the message list is not needed by the
modelled events). -/
structure MStreamState where
  accumulatedContent : String
  contentSize : Nat
  toolCalls : List (Option MToolCall)
  deriving Repr, DecidableEq

/-- The 50 KB accumulation cap (`MAX_ACCUMULATED_SIZE`). -/
def MAX_ACCUMULATED_SIZE : Nat := 50 * 1024

/-- The truncation notice yielded when a delta would pass the cap. -/
def truncationNotice : String := "\n[Content truncated due to size limit]\n"

/-- Sparse-array read (`state.toolCalls[index]`). -/
def arrGet (l : List (Option MToolCall)) (i : Nat) : Option MToolCall :=
  (l.getD i none)

/-- Sparse-array write (`state.toolCalls[index] = v`), filling holes. -/
def arrSet (l : List (Option MToolCall)) (i : Nat) (v : MToolCall) :
    List (Option MToolCall) :=
  let padded := l ++ List.replicate (i + 1 - l.length) none
  padded.set i (some v)

/-- `x || ''` on an optional string field. -/
def orEmpty (s : Option String) : String :=
  match s with
  | some v => v
  | none => ""

/-- Model of `Agent.handleToolCallDeltas` for one fragment. -/
def applyToolCallDelta (st : List (Option MToolCall)) (d : MToolCallDelta) :
    List (Option MToolCall) :=
  match d.index with
  | none => st
  | some i =>
    match arrGet st i with
    | none =>
      arrSet st i { id := orEmpty d.id, name := orEmpty d.name, args := orEmpty d.args }
    | some existing =>
      match d.args with
      | some a =>
        if a = "" then st
        else arrSet st i { existing with args := existing.args ++ a }
      | none => st

/-- The `tool_call_item` events a chunk emits: one per fragment whose
index is new to the state, named `function?.name || 'unknown_tool'`. -/
def newToolCallEvents (st : List (Option MToolCall)) (ds : List MToolCallDelta) :
    List MStreamEvent :=
  ds.filterMap fun d =>
    match d.index with
    | some i =>
      if (arrGet st i).isNone then
        some (.toolCallItem (let n := orEmpty d.name; if n = "" then "unknown_tool" else n))
      else none
    | none => none

/-- Processing of one chunk's delta: the size-capped content handling
(lines 242-266 of the agent) followed by the tool-call fragment handling. -/
def processChunk (st : MStreamState) (ch : MChunk) : MStreamState × List MStreamEvent :=
  let contentStep : MStreamState × List MStreamEvent :=
    match ch.content with
    | some s =>
      if s = "" then (st, [])
      else
        let deltaSize := byteLength s
        if st.contentSize + deltaSize > MAX_ACCUMULATED_SIZE then
          (st, [.textDelta truncationNotice])
        else
          ({ st with accumulatedContent := st.accumulatedContent ++ s,
                     contentSize := st.contentSize + deltaSize },
           [.textDelta s])
    | none => (st, [])
  let st1 := contentStep.1
  let tcEvents := newToolCallEvents st1.toolCalls ch.toolCalls
  let st2 := { st1 with toolCalls := ch.toolCalls.foldl applyToolCallDelta st1.toolCalls }
  (st2, contentStep.2 ++ tcEvents)

/-- Model of the `for await (const chunk of stream)` loop of
`processStream` over a stream that never reports
`finish_reason: 'tool_calls'` (one model response, no follow-up round). -/
def processChunks : MStreamState → List MChunk → MStreamState × List MStreamEvent
  | st, [] => (st, [])
  | st, ch :: rest =>
    let p := processChunk st ch
    let q := processChunks p.1 rest
    (q.1, p.2 ++ q.2)

/-- The fresh state `processStream` starts from. -/
def initialStreamState : MStreamState :=
  { accumulatedContent := "", contentSize := 0, toolCalls := [] }

/-! ## Helper lemmas -/

/-- ASCII folding preserves length, so query/target lengths can be read
off the original strings. -/
theorem strToLower_length (s : String) : (strToLower s).length = s.length := by
  unfold strToLower
  show (s.data.map charToLower).length = s.data.length
  exact List.length_map _ _

/-- A one-byte UTF-8 character. -/
theorem charUtf8Bytes_ascii (c : Char) (h : c.toNat < 128) :
    charUtf8Bytes c = [c.toNat] := by
  simp [charUtf8Bytes, h]

/-- ASCII characters occupy one byte each. -/
theorem flatMap_charUtf8Bytes_ascii (l : List Char) (h : ∀ c ∈ l, c.toNat < 128) :
    l.flatMap charUtf8Bytes = l.map (·.toNat) := by
  induction l with
  | nil => rfl
  | cons c rest ih =>
    rw [List.flatMap_cons, List.map_cons, charUtf8Bytes_ascii c (h c (by simp)),
      ih (fun x hx => h x (by simp [hx]))]
    rfl

/-- ASCII content occupies one byte per character. -/
theorem strBytes_ascii (s : String) (h : ∀ c ∈ s.data, c.toNat < 128) :
    strBytes s = s.data.map (·.toNat) :=
  flatMap_charUtf8Bytes_ascii s.data h

/-! ## Claim theorems -/

/-- The substring branch of `calculateFuzzyScore` in the default
case-insensitive mode. -/
theorem fuzzyScore_substring_eq (q t : String)
    (hne : strToLower q ≠ strToLower t)
    (hinc : listIncludes (strToLower t).data (strToLower q).data = true) :
    calculateFuzzyScore q t false = 0.9 * ((q.length : ℚ) / (t.length : ℚ)) := by
  simp only [calculateFuzzyScore, Bool.false_eq_true, if_false, if_neg hne, hinc,
    if_true, strToLower_length]

/-- C9: for every non-empty query `q`, `calculateFuzzyScore(q, q)` is 1.0;
when the case-folded target strictly contains the case-folded query as a
substring, the score is `0.9 * (query length / target length)`; in
particular `calculateFuzzyScore("abc", "xabcx") ≥ 0.9 * (3/5)`. -/
theorem C9_fuzzy_score_exact_and_substring :
    (∀ q : String, q ≠ "" → calculateFuzzyScore q q false = 1.0) ∧
    (∀ q t : String,
        strToLower q ≠ strToLower t →
        listIncludes (strToLower t).data (strToLower q).data = true →
        calculateFuzzyScore q t false = 0.9 * ((q.length : ℚ) / (t.length : ℚ))) ∧
    calculateFuzzyScore "abc" "xabcx" false ≥ 0.9 * (3 / 5) := by
  refine ⟨?_, fun q t hne hinc => fuzzyScore_substring_eq q t hne hinc, ?_⟩
  · intro q _
    simp [calculateFuzzyScore]
  · rw [fuzzyScore_substring_eq "abc" "xabcx" (by decide) (by decide)]
    have h3 : ("abc".length : ℚ) = 3 := by norm_num [String.length]
    have h5 : ("xabcx".length : ℚ) = 5 := by norm_num [String.length]
    rw [h3, h5]

/-- C9 witness: the exact-match and substring branches evaluated at
concrete inputs. -/
theorem C9_fuzzy_score_witness :
    calculateFuzzyScore "abc" "abc" false = 1.0 ∧
    calculateFuzzyScore "abc" "xabcx" false = 0.9 * ((3 : ℚ) / 5) :=
  ⟨C9_fuzzy_score_exact_and_substring.1 "abc" (by decide),
   C9_fuzzy_score_exact_and_substring.2.1 "abc" "xabcx" (by decide) (by decide)⟩

/-- C8: a stat-able file with a denylisted extension is classified binary
regardless of content; a null byte in the first `min(1024, size)` bytes
forces a binary classification; and a pure-ASCII file under 1024 bytes
with a non-denylisted extension (hence also far below the 100 MB bound)
is classified non-binary. -/
theorem C8_isLikelyBinary_classification :
    (∀ p c, binaryExtensions.contains (strToLower (extname p)) = true →
        isLikelyBinary p c = true) ∧
    (∀ p c, (((strBytes c).take (min 1024 (strBytes c).length)).any (· == 0)) = true →
        isLikelyBinary p c = true) ∧
    (∀ p c, (∀ ch ∈ c.data, 0 < ch.toNat ∧ ch.toNat < 128) →
        (strBytes c).length < 1024 →
        binaryExtensions.contains (strToLower (extname p)) = false →
        isLikelyBinary p c = false) := by
  refine ⟨?_, ?_, ?_⟩
  · intro p c h
    have hmem : strToLower (extname p) ∈ binaryExtensions := by simpa using h
    simp [isLikelyBinary, hmem]
  · intro p c h
    have hpos : 0 < (strBytes c).length := by
      rcases Nat.eq_zero_or_pos (strBytes c).length with hz | hp
      · rw [List.eq_nil_of_length_eq_zero hz] at h
        simp at h
      · exact hp
    simp [isLikelyBinary, h, hpos]
  · intro p c hascii hlen hext
    have hbytes := strBytes_ascii c (fun ch hc => (hascii ch hc).2)
    have hsmall : ¬ (strBytes c).length > 100 * 1024 * 1024 := by omega
    have hnull : ((strBytes c).take (min 1024 (strBytes c).length)).any (· == 0) = false := by
      rw [List.any_eq_false]
      intro x hx
      have hx2 := List.mem_of_mem_take hx
      rw [hbytes] at hx2
      obtain ⟨ch, hch, rfl⟩ := List.mem_map.mp hx2
      have := (hascii ch hch).1
      simp only [beq_iff_eq]
      omega
    have hnotmem : strToLower (extname p) ∉ binaryExtensions := by simpa using hext
    simp [isLikelyBinary, hsmall, hnotmem, hnull]

/-- C8 witness: the three classifications at concrete files. -/
theorem C8_isLikelyBinary_witness :
    isLikelyBinary "pic.png" "plain text" = true ∧
    isLikelyBinary "a.txt" (String.mk ['h', Char.ofNat 0, 'i']) = true ∧
    isLikelyBinary "a.txt" "hello" = false :=
  ⟨C8_isLikelyBinary_classification.1 "pic.png" "plain text" (by decide),
   C8_isLikelyBinary_classification.2.1 "a.txt" (String.mk ['h', Char.ofNat 0, 'i'])
     (by decide),
   C8_isLikelyBinary_classification.2.2 "a.txt" "hello" (by decide) (by decide) (by decide)⟩

/-- C5: `writeFileOptimized` on an existing path with `overwrite = false`
returns the structured already-exists failure and leaves the filesystem
(content and timestamps) and the cache untouched; no exception is raised
(the model's only throw sites are underlying `fs` faults, not taken on
this branch). -/
theorem C5_write_existing_no_overwrite (fs : MFS) (cache : MCache)
    (path content : String) (now : Int) (h : (fsLookup fs path).isSome = true) :
    writeFileOptimized fs cache path content false false now =
      (.failure path "File already exists and overwrite is set to false", fs, cache) := by
  simp [writeFileOptimized, h]

/-- C5 witness: the failure branch at a concrete one-file filesystem. -/
theorem C5_write_existing_no_overwrite_witness :
    writeFileOptimized [("a.txt", { content := "old", mtime := 7, birthtime := 3 })]
        { entries := [], maxSize := 50, ttl := 300000 } "a.txt" "new" false false 99 =
      (.failure "a.txt" "File already exists and overwrite is set to false",
        [("a.txt", { content := "old", mtime := 7, birthtime := 3 })],
        { entries := [], maxSize := 50, ttl := 300000 }) :=
  C5_write_existing_no_overwrite
    [("a.txt", { content := "old", mtime := 7, birthtime := 3 })]
    { entries := [], maxSize := 50, ttl := 300000 } "a.txt" "new" 99 (by decide)

/-- A two-entry cache at capacity 2: `old.txt` was inserted at time 0 and
`new.txt` at time 1000, both accessed once. -/
def c3Cache : MCache :=
  { entries :=
      [("old.txt", { content := "o", timestamp := 0, size := 1, accessCount := 1 }),
       ("new.txt", { content := "n", timestamp := 1000, size := 1, accessCount := 1 })],
    maxSize := 2, ttl := 300000 }

/-- C3, evaluated at the failing input: at time 1000 the spec score
`0.7·accessCount − 0.3·age` is lowest for `old.txt` (0.7 − 300 versus
0.7 − 0), so the claim demands `old.txt` be evicted first; the code
instead ranks by `0.7·accessCount + 0.3·age`, evicting `new.txt` and
keeping `old.txt`. -/
theorem C3_emergencyCleanup_divergence :
    (emergencyCleanup 1000 c3Cache).entries =
      [("old.txt", { content := "o", timestamp := 0, size := 1, accessCount := 1 })] ∧
    (0.7 * 1 - 0.3 * 1000 : ℚ) < 0.7 * 1 - 0.3 * 0 := by
  constructor
  · norm_num [emergencyCleanup, c3Cache, sortByScore, insertByScore, cleanupScore,
      mapDelete]
    decide
  · norm_num

/-- The example tree for the `maxDepth = 0` traversal: a root file and a
file inside a subdirectory. -/
def c4Tree : FsEntry :=
  .dir "root" [.file "a.txt" "", .dir "sub" [.file "c.txt" ""]]

/-- C4 counterexample: with `maxDepth = 0` the file visitor is also
invoked on `sub/c.txt`, a file below a subdirectory, because
`visitor.maxDepth || 10` treats the falsy `0` as unset. -/
theorem C4_maxDepth_zero_descends :
    visitedFiles c4Tree (some 0) = ["a.txt", "sub/c.txt"] ∧
    "sub/c.txt" ∈ visitedFiles c4Tree (some 0) := by
  have h : visitedFiles c4Tree (some 0) = ["a.txt", "sub/c.txt"] := by
    simp [visitedFiles, traverseDirectory, collectFilesVisitor,
      effectiveMaxDepth, effectiveIncludeHidden, c4Tree, travItems, joinRel]
    decide
  exact ⟨h, by rw [h]; simp⟩

/-- C4 (amended): `traverseDirectory` treats `maxDepth = 0` as
unspecified — the walk runs with the default bound 10 and is identical to
an invocation with `maxDepth = 10` (so it does descend into
subdirectories, as the counterexample shows). -/
theorem C4_maxDepth_zero_is_default {σ : Type} (V : MVisitor σ) (root : FsEntry)
    (rootPath : String) (s : σ) :
    traverseDirectory { V with maxDepth := some 0 } root rootPath s =
      traverseDirectory { V with maxDepth := some 10 } root rootPath s := by
  cases root <;> rfl

/-! ### Association-list lemmas for the cache -/

/-- Setting a key makes it retrievable. -/
theorem mapGet_mapSetJS_self (m : List (String × CacheEntry)) (k : String)
    (v : CacheEntry) : mapGet (mapSetJS m k v) k = some v := by
  induction m with
  | nil => simp [mapSetJS, mapGet]
  | cons e rest ih =>
    by_cases h : e.1 == k
    · simp [mapSetJS, h, mapGet]
    · simp only [mapSetJS, h, Bool.false_eq_true, if_false]
      simpa [mapGet, List.find?, h] using ih

/-- A key absent from the key list is not retrievable. -/
theorem mapGet_eq_none_of_not_mem (m : List (String × CacheEntry)) (k : String)
    (h : k ∉ m.map Prod.fst) : mapGet m k = none := by
  induction m with
  | nil => rfl
  | cons e rest ih =>
    simp only [List.map_cons, List.mem_cons, not_or] at h
    have hb : (e.1 == k) = false := by
      simp [beq_eq_false_iff_ne]
      exact fun hk => h.1 hk.symm
    simpa [mapGet, List.find?, hb] using ih h.2

/-- Keys reachable after a set were present before, or are the set key. -/
theorem mem_keys_mapSetJS (m : List (String × CacheEntry)) (k : String)
    (v : CacheEntry) (x : String)
    (h : x ∈ (mapSetJS m k v).map Prod.fst) : x ∈ m.map Prod.fst ∨ x = k := by
  induction m with
  | nil =>
    right
    simpa [mapSetJS] using h
  | cons e rest ih =>
    by_cases he : e.1 == k
    · simp only [mapSetJS, he, if_true, List.map_cons, List.mem_cons] at h
      rcases h with h | h
      · exact Or.inr h
      · exact Or.inl (by simp [h])
    · simp only [mapSetJS, he, Bool.false_eq_true, if_false, List.map_cons,
        List.mem_cons] at h
      rcases h with h | h
      · exact Or.inl (by simp [h])
      · rcases ih h with h2 | h2
        · exact Or.inl (by simp [h2])
        · exact Or.inr h2

/-- `mapSetJS` keeps the key list duplicate-free (the JS `Map` invariant). -/
theorem nodup_keys_mapSetJS (m : List (String × CacheEntry)) (k : String)
    (v : CacheEntry) (h : (m.map Prod.fst).Nodup) :
    ((mapSetJS m k v).map Prod.fst).Nodup := by
  induction m with
  | nil => simp [mapSetJS]
  | cons e rest ih =>
    simp only [List.map_cons, List.nodup_cons] at h
    by_cases he : e.1 == k
    · have hk : e.1 = k := by simpa using he
      simp only [mapSetJS, he, if_true, List.map_cons, List.nodup_cons]
      exact ⟨hk ▸ h.1, h.2⟩
    · have hk : e.1 ≠ k := by simpa using he
      simp only [mapSetJS, he, Bool.false_eq_true, if_false, List.map_cons,
        List.nodup_cons]
      refine ⟨fun hmem => ?_, ih h.2⟩
      rcases mem_keys_mapSetJS rest k v e.1 hmem with h2 | h2
      · exact h.1 h2
      · exact hk h2

/-- Deleting a key removes it entirely when keys are duplicate-free. -/
theorem mapGet_mapDelete_self (m : List (String × CacheEntry)) (k : String)
    (h : (m.map Prod.fst).Nodup) : mapGet (mapDelete m k) k = none := by
  induction m with
  | nil => rfl
  | cons e rest ih =>
    simp only [List.map_cons, List.nodup_cons] at h
    by_cases he : e.1 == k
    · have hk : e.1 = k := by simpa using he
      simp only [mapDelete, he, if_true]
      exact mapGet_eq_none_of_not_mem rest k (hk ▸ h.1)
    · simp only [mapDelete, he, Bool.false_eq_true, if_false]
      simpa [mapGet, List.find?, he] using ih h.2

/-- Below capacity, the oldest-first eviction loop does nothing. -/
theorem evictWhileFull_of_lt (maxSize : Nat) (m : List (String × CacheEntry))
    (h : m.length < maxSize) : evictWhileFull maxSize m = m := by
  cases m with
  | nil => rfl
  | cons e rest =>
    unfold evictWhileFull
    rw [if_neg]
    omega

/-- C6: with the cache below capacity and memory pressure strictly below
both the configured threshold and the 0.6 large-content gate,
`set(p, c, size)` followed within the TTL by `get(p, size, t)` returns
`c`; and `get(p, s2, t)` with a changed size `s2 ≠ size` reports absent
and deletes the stale entry. -/
theorem C6_cache_set_then_get (cfg : MCacheConfig) (c : MCache)
    (p content : String) (size s2 : Nat) (now t : Int) (pressure : ℚ)
    (hnodup : (c.entries.map Prod.fst).Nodup)
    (hcap : c.entries.length < c.maxSize)
    (hp1 : pressure < cfg.memoryPressureThreshold)
    (hp2 : pressure < 0.6)
    (ht2 : t - now ≤ (c.ttl : Int)) :
    (cacheGet (cacheSet cfg c p content size now pressure) p size t).1 = some content ∧
    (s2 ≠ size →
      (cacheGet (cacheSet cfg c p content size now pressure) p s2 t).1 = none ∧
      mapGet (cacheGet (cacheSet cfg c p content size now pressure) p s2 t).2.entries
        p = none) := by
  have hA : (pressure > cfg.memoryPressureThreshold) = False :=
    eq_false (not_lt.mpr hp1.le)
  have hB : (pressure > (0.6 : ℚ)) = False := eq_false (not_lt.mpr hp2.le)
  have hset : (cacheSet cfg c p content size now pressure).entries =
      mapSetJS c.entries p
        { content := content, timestamp := now, size := size, accessCount := 1 } := by
    simp only [cacheSet, hA, hB, if_false, and_false,
      evictWhileFull_of_lt c.maxSize c.entries hcap]
  have httl : (cacheSet cfg c p content size now pressure).ttl = c.ttl := by
    simp only [cacheSet, hA, hB, if_false, and_false]
  have hget := mapGet_mapSetJS_self c.entries p
    { content := content, timestamp := now, size := size, accessCount := 1 }
  have hnodelete : ¬ (t - now > (c.ttl : Int) ∨ size ≠ size) := by
    rw [not_or]
    exact ⟨not_lt.mpr ht2, by simp⟩
  constructor
  · simp only [cacheGet, hset, hget, httl]
    rw [if_neg hnodelete]
  · intro hs2
    simp only [cacheGet, hset, hget, httl]
    rw [if_pos (Or.inr (fun hh => hs2 hh.symm))]
    refine ⟨rfl, ?_⟩
    simp only
    exact mapGet_mapDelete_self _ p (nodup_keys_mapSetJS c.entries p _ hnodup)

/-- C6 witness: a fresh cache of capacity 50 under zero memory pressure,
written and read back at the same instant, then probed with a changed
size. -/
theorem C6_cache_set_then_get_witness :
    (cacheGet
        (cacheSet { maxFileSize := 10485760, memoryPressureThreshold := 0.8 }
          { entries := [], maxSize := 50, ttl := 300000 } "a.txt" "hi" 2 0 0)
        "a.txt" 2 0).1 = some "hi" ∧
    (cacheGet
        (cacheSet { maxFileSize := 10485760, memoryPressureThreshold := 0.8 }
          { entries := [], maxSize := 50, ttl := 300000 } "a.txt" "hi" 2 0 0)
        "a.txt" 3 0).1 = none := by
  have h := C6_cache_set_then_get
    { maxFileSize := 10485760, memoryPressureThreshold := 0.8 }
    { entries := [], maxSize := 50, ttl := 300000 } "a.txt" "hi" 2 3 0 0 0
    (by simp) (by norm_num) (by norm_num) (by norm_num) (by norm_num)
  exact ⟨h.1, (h.2 (by norm_num)).1⟩

/-- C2: `executeToolCalls` produces exactly one result per requested
call, in the order received (the calls run sequentially, each against the
state its predecessor left), with each result's `toolCallId` equal to the
id of its originating call; a call naming an unregistered tool, or a tool
whose `invoke` throws, yields a structured `{success:false, error}` JSON
result instead of an escaping exception. -/
theorem C2_executeToolCalls_correlation {ω : Type} (tools : List (MTool ω))
    (w : ω) (calls : List MToolCall) :
    ((executeToolCalls tools w calls).1.map (·.toolCallId) = calls.map (·.id)) ∧
    (∀ (w2 : ω) (call : MToolCall),
      tools.find? (fun t => t.name == call.name) = none →
      execOneToolCall tools w2 call =
        ({ toolCallId := call.id, success := false,
           response := jsonStringify (.obj [("success", .bool false),
             ("error", .str ("Unknown tool: " ++ call.name))]),
           error := some ("Unknown tool: " ++ call.name) }, w2)) ∧
    (∀ (w2 : ω) (call : MToolCall) (tool : MTool ω) (e : String) (w3 : ω),
      tools.find? (fun t => t.name == call.name) = some tool →
      tool.invoke w2 call.args = (.error e, w3) →
      execOneToolCall tools w2 call =
        ({ toolCallId := call.id, success := false,
           response := jsonStringify (.obj [("success", .bool false),
             ("error", .str ("Tool execution failed: " ++ e))]),
           error := some e }, w3)) := by
  refine ⟨?_, ?_, ?_⟩
  · induction calls generalizing w with
    | nil => rfl
    | cons call rest ih =>
      simp only [executeToolCalls, List.map_cons, List.cons.injEq]
      refine ⟨?_, ih _⟩
      unfold execOneToolCall
      split
      · split <;> rfl
      · rfl
  · intro w2 call hf
    simp [execOneToolCall, hf]
  · intro w2 call tool e w3 hf hi
    simp [execOneToolCall, hf, hi]

/-- C2 witness: a one-tool registry run on two calls — the first call
names an unregistered tool, the second's tool throws — still yields
correlated, structured results. -/
theorem C2_executeToolCalls_witness :
    ((executeToolCalls (ω := Nat)
        [{ name := "boom", invoke := fun w _ => (.error "kaput", w + 1) }] 0
        [{ id := "call_1", name := "nope", args := "\x7b\x7d" },
         { id := "call_2", name := "boom", args := "\x7b\x7d" }]).1.map
      (·.toolCallId) = ["call_1", "call_2"]) ∧
    execOneToolCall (ω := Nat)
        [{ name := "boom", invoke := fun w _ => (.error "kaput", w + 1) }] 0
        { id := "call_1", name := "nope", args := "\x7b\x7d" } =
      ({ toolCallId := "call_1", success := false,
         response := jsonStringify (.obj [("success", .bool false),
           ("error", .str "Unknown tool: nope")]),
         error := some "Unknown tool: nope" }, 0) ∧
    execOneToolCall (ω := Nat)
        [{ name := "boom", invoke := fun w _ => (.error "kaput", w + 1) }] 5
        { id := "call_2", name := "boom", args := "\x7b\x7d" } =
      ({ toolCallId := "call_2", success := false,
         response := jsonStringify (.obj [("success", .bool false),
           ("error", .str "Tool execution failed: kaput")]),
         error := some "kaput" }, 6) := by
  have h := C2_executeToolCalls_correlation (ω := Nat)
    [{ name := "boom", invoke := fun w _ => (.error "kaput", w + 1) }] 0
    [{ id := "call_1", name := "nope", args := "\x7b\x7d" },
     { id := "call_2", name := "boom", args := "\x7b\x7d" }]
  exact ⟨h.1,
    h.2.1 0 { id := "call_1", name := "nope", args := "\x7b\x7d" } (by rfl),
    h.2.2 5 { id := "call_2", name := "boom", args := "\x7b\x7d" }
      { name := "boom", invoke := fun w _ => (.error "kaput", w + 1) } "kaput" 6
      (by rfl) (by rfl)⟩

/-- A run of `n` copies of `'a'` occupies `n` UTF-8 bytes. -/
theorem byteLength_replicate_a (n : Nat) :
    byteLength (String.mk (List.replicate n 'a')) = n := by
  unfold byteLength strBytes
  show ((List.replicate n 'a').flatMap charUtf8Bytes).length = n
  rw [flatMap_charUtf8Bytes_ascii _ (fun c hc => by
    rw [List.eq_of_mem_replicate hc]; decide)]
  simp

/-- Processing a chunk that carries only a non-empty text delta. -/
theorem processChunk_content_only (st : MStreamState) (s : String) (hs : ¬ s = "") :
    processChunk st { content := some s, toolCalls := [], finishReason := none } =
      if st.contentSize + byteLength s > MAX_ACCUMULATED_SIZE then
        (st, [.textDelta truncationNotice])
      else
        ({ st with accumulatedContent := st.accumulatedContent ++ s,
                   contentSize := st.contentSize + byteLength s },
         [.textDelta s]) := by
  simp only [processChunk, hs, if_false, newToolCallEvents, List.filterMap_nil,
    List.foldl_nil]
  split <;> rfl

/-- A text delta of exactly 50 KB (it fills the accumulation cap). -/
def bigDelta : String := String.mk (List.replicate 51200 'a')

/-- The failing stream for the truncation claim: a 50 KB delta followed
by the one-byte deltas `"b"` and `"c"`. -/
def c1Chunks : List MChunk :=
  [{ content := some bigDelta, toolCalls := [], finishReason := none },
   { content := some "b", toolCalls := [], finishReason := none },
   { content := some "c", toolCalls := [], finishReason := none }]

/-- C1, evaluated at the failing input: once the accumulated text has
reached the 50 KB cap, each further delta is replaced by the truncation
notice — the delta's own content (`"b"`, `"c"`) is never forwarded, and
the notice is emitted once per over-cap delta (twice here), not once per
stream.  Accumulation does stop at the cap, as the claim states. -/
theorem C1_truncation_divergence :
    (processChunks initialStreamState c1Chunks).2 =
      [.textDelta bigDelta, .textDelta truncationNotice, .textDelta truncationNotice] ∧
    MStreamEvent.textDelta "b" ∉ (processChunks initialStreamState c1Chunks).2 ∧
    (processChunks initialStreamState c1Chunks).2.count
      (.textDelta truncationNotice) = 2 ∧
    (processChunks initialStreamState c1Chunks).1.accumulatedContent = bigDelta := by
  have hbig : byteLength bigDelta = 51200 := byteLength_replicate_a 51200
  have hdatalen : bigDelta.data.length = 51200 := by
    show (List.replicate 51200 'a').length = 51200
    rw [List.length_replicate]
  have hne : ¬ bigDelta = "" := by
    intro h
    have h2 : bigDelta.data.length = 0 := by rw [h]; rfl
    omega
  have hb : byteLength "b" = 1 := by decide
  have hc : byteLength "c" = 1 := by decide
  have hbne : ¬ ("b" : String) = "" := by decide
  have hcne : ¬ ("c" : String) = "" := by decide
  have hbneq : ("b" : String) ≠ bigDelta := by
    intro h
    have h2 := congrArg byteLength h
    rw [hb, hbig] at h2
    omega
  have hnoteq : truncationNotice ≠ bigDelta := by
    intro h
    have h2 := congrArg byteLength h
    have h3 : byteLength truncationNotice = 39 := by decide
    rw [h3, hbig] at h2
    omega
  have step1 : processChunk initialStreamState
      { content := some bigDelta, toolCalls := [], finishReason := none } =
      ({ accumulatedContent := "" ++ bigDelta, contentSize := 0 + 51200,
         toolCalls := [] }, [.textDelta bigDelta]) := by
    rw [processChunk_content_only _ _ hne, hbig]
    rw [if_neg (by norm_num [initialStreamState, MAX_ACCUMULATED_SIZE])]
    rfl
  set S1 : MStreamState :=
    { accumulatedContent := "" ++ bigDelta, contentSize := 0 + 51200, toolCalls := [] }
  have step2 : processChunk S1
      { content := some "b", toolCalls := [], finishReason := none } =
      (S1, [.textDelta truncationNotice]) := by
    rw [processChunk_content_only _ _ hbne, hb]
    rw [if_pos (by norm_num [S1, MAX_ACCUMULATED_SIZE])]
  have step3 : processChunk S1
      { content := some "c", toolCalls := [], finishReason := none } =
      (S1, [.textDelta truncationNotice]) := by
    rw [processChunk_content_only _ _ hcne, hc]
    rw [if_pos (by norm_num [S1, MAX_ACCUMULATED_SIZE])]
  have hrun : processChunks initialStreamState c1Chunks =
      (S1, [.textDelta bigDelta, .textDelta truncationNotice,
            .textDelta truncationNotice]) := by
    show processChunks initialStreamState
      ({ content := some bigDelta, toolCalls := [], finishReason := none } ::
        { content := some "b", toolCalls := [], finishReason := none } ::
        { content := some "c", toolCalls := [], finishReason := none } :: []) = _
    rw [processChunks, step1]
    rw [processChunks, step2]
    rw [processChunks, step3]
    rw [processChunks]
    rfl
  rw [hrun]
  refine ⟨rfl, ?_, ?_, rfl⟩
  · simp only [List.mem_cons, List.not_mem_nil, or_false, not_or]
    refine ⟨?_, ?_, ?_⟩ <;> intro h <;> injection h with h2
    · exact hbneq h2
    · exact (by decide : ¬ ("b" : String) = truncationNotice) h2
    · exact (by decide : ¬ ("b" : String) = truncationNotice) h2
  · have e1 : (MStreamEvent.textDelta bigDelta ==
        MStreamEvent.textDelta truncationNotice) = false := by
      rw [beq_eq_false_iff_ne]
      intro h
      injection h with h2
      exact hnoteq h2.symm
    have e2 : (MStreamEvent.textDelta truncationNotice ==
        MStreamEvent.textDelta truncationNotice) = true := by simp
    simp [List.count_cons, e1, e2]

/-- C7 (amended): every `read_file` invocation — the registry's uniform
invoke contract — returns `JSON.stringify` of an object carrying a
boolean `success` field, for every argument string and world, with no
escaping exception (the function is total); however, an argument object
carrying undeclared properties is NOT rejected: `z.object` strips unknown
keys, so schema validation ignores them entirely and the call proceeds. -/
theorem C7_invoke_json_contract :
    (∀ (w : MWorld) (now : Int) (input : String),
      ∃ (fields : List (String × Json)) (b : Bool),
        (readFileInvoke w now input).1 = jsonStringify (.obj fields) ∧
        ("success", Json.bool b) ∈ fields) ∧
    (∀ (fields : List (String × Json)) (k : String) (v : Json), k ≠ "file_path" →
      readFileSchemaParse (.obj (fields ++ [(k, v)])) =
        readFileSchemaParse (.obj fields)) := by
  constructor
  · intro w now input
    unfold readFileInvoke
    rcases hv : validateReadFileInput input with e | fp
    · exact ⟨_, false, rfl, by simp⟩
    · dsimp only
      split
      · exact ⟨_, false, rfl, by simp⟩
      · rcases hr : readFileOptimized w fp now with ⟨res, w2⟩
        cases res with
        | ok r => exact ⟨_, true, rfl, by simp⟩
        | error e => exact ⟨_, false, rfl, by simp⟩
  · intro fields k v hk
    have hlk : jsonObjLookup (fields ++ [(k, v)]) "file_path" =
        jsonObjLookup fields "file_path" := by
      unfold jsonObjLookup
      rw [List.reverse_append]
      simp only [List.reverse_singleton, List.singleton_append, List.find?]
      have hb : ((k, v).1 == "file_path") = false := by
        simpa using hk
      rw [hb]
      simp
    simp only [readFileSchemaParse]
    rw [hlk]

/-- The unknown-property argument string the claim says must be
rejected. -/
def c7Input : String := "\x7b\"file_path\":\"a.txt\",\"bogus\":1\x7d"

/-- A world holding the readable text file `a.txt`. -/
def c7World : MWorld :=
  { fs := [("a.txt", { content := "hi", mtime := 5, birthtime := 5 })],
    cache := { entries := [], maxSize := 50, ttl := 300000 },
    maxFileSize := 10485760,
    memoryPressure := 0,
    memoryPressureThreshold := 0.8 }

/-- C7 counterexample: the argument object `{"file_path":"a.txt",
"bogus":1}` carries the undeclared property `bogus`, yet validation
accepts it (stripping the extra key) and the invocation proceeds to a
`success:true` result — it is not rejected with `{success:false, error}`
as the claim states. -/
theorem C7_unknown_property_not_rejected :
    validateReadFileInput c7Input = .ok "a.txt" ∧
    (readFileInvoke c7World 5 c7Input).1 =
      jsonStringify (.obj [("success", .bool true), ("file_path", .str "a.txt"),
        ("size", .num 2), ("content", .str "hi"),
        ("last_modified", .str "5")]) := by
  exact ⟨rfl, rfl⟩

/-- C7 witness: the JSON contract on a malformed input, and
unknown-property stripping at a concrete object. -/
theorem C7_invoke_json_contract_witness :
    (∃ (fields : List (String × Json)) (b : Bool),
      (readFileInvoke c7World 5 "not json").1 = jsonStringify (.obj fields) ∧
      ("success", Json.bool b) ∈ fields) ∧
    readFileSchemaParse (.obj [("file_path", .str "a.txt"), ("bogus", .num 1)]) =
      readFileSchemaParse (.obj [("file_path", .str "a.txt")]) :=
  ⟨C7_invoke_json_contract.1 c7World 5 "not json",
   C7_invoke_json_contract.2 [("file_path", .str "a.txt")] "bogus" (.num 1)
     (by decide)⟩

/-! ### Unfolding equations of the traversal loop -/

/-- An exhausted directory listing leaves the state unchanged. -/
theorem travItems_nil {σ : Type}
    (vf : Option (σ → String → String → String → σ × Option Bool))
    (vd : Option (σ → String → String → σ × Option Bool))
    (se : Option (String → String → Bool)) (fexts : Option (List String))
    (maxD : Nat) (incH : Bool) (d : Nat) (cp cr : String) (s : σ) :
    travItems vf vd se fexts maxD incH d cp cr [] s = s := by
  rw [travItems.eq_def]

/-- A hidden file is skipped. -/
theorem travItems_file_hidden {σ : Type}
    (vf : Option (σ → String → String → String → σ × Option Bool))
    (vd : Option (σ → String → String → σ × Option Bool))
    (se : Option (String → String → Bool)) (fexts : Option (List String))
    (maxD : Nat) (incH : Bool) (d : Nat) (cp cr name content : String)
    (rest : List FsEntry) (s : σ)
    (h : (!incH && listStartsWith name.data ['.']) = true) :
    travItems vf vd se fexts maxD incH d cp cr (.file name content :: rest) s =
      travItems vf vd se fexts maxD incH d cp cr rest s := by
  rw [travItems.eq_def]
  simp only [h, if_true]

/-- A file filtered out by the extension list is skipped. -/
theorem travItems_file_extSkip {σ : Type}
    (vf : Option (σ → String → String → String → σ × Option Bool))
    (vd : Option (σ → String → String → σ × Option Bool))
    (se : Option (String → String → Bool)) (fexts : Option (List String))
    (maxD : Nat) (incH : Bool) (d : Nat) (cp cr name content : String)
    (rest : List FsEntry) (s : σ)
    (h : (!incH && listStartsWith name.data ['.']) = false)
    (hx : (match fexts with
           | some exts => decide (exts.length > 0) && !exts.contains (extname name)
           | none => false) = true) :
    travItems vf vd se fexts maxD incH d cp cr (.file name content :: rest) s =
      travItems vf vd se fexts maxD incH d cp cr rest s := by
  rw [travItems.eq_def]
  simp only [h, hx, Bool.false_eq_true, if_false, if_true]

/-- A visited file whose callback signals early termination stops the
current directory's loop. -/
theorem travItems_file_stop {σ : Type}
    (f : σ → String → String → String → σ × Option Bool)
    (vd : Option (σ → String → String → σ × Option Bool))
    (se : Option (String → String → Bool)) (fexts : Option (List String))
    (maxD : Nat) (incH : Bool) (d : Nat) (cp cr name content : String)
    (rest : List FsEntry) (s : σ)
    (h : (!incH && listStartsWith name.data ['.']) = false)
    (hx : (match fexts with
           | some exts => decide (exts.length > 0) && !exts.contains (extname name)
           | none => false) = false)
    (hstop : ((f s (cp ++ "/" ++ name) (joinRel cr name) content).2 ==
      some false) = true) :
    travItems (some f) vd se fexts maxD incH d cp cr (.file name content :: rest) s =
      (f s (cp ++ "/" ++ name) (joinRel cr name) content).1 := by
  rw [travItems.eq_def]
  simp only [h, hx, hstop, Bool.false_eq_true, if_false, if_true]

/-- A visited file whose callback does not stop hands its new state to
the rest of the listing. -/
theorem travItems_file_visit {σ : Type}
    (f : σ → String → String → String → σ × Option Bool)
    (vd : Option (σ → String → String → σ × Option Bool))
    (se : Option (String → String → Bool)) (fexts : Option (List String))
    (maxD : Nat) (incH : Bool) (d : Nat) (cp cr name content : String)
    (rest : List FsEntry) (s : σ)
    (h : (!incH && listStartsWith name.data ['.']) = false)
    (hx : (match fexts with
           | some exts => decide (exts.length > 0) && !exts.contains (extname name)
           | none => false) = false)
    (hcont : ((f s (cp ++ "/" ++ name) (joinRel cr name) content).2 ==
      some false) = false) :
    travItems (some f) vd se fexts maxD incH d cp cr (.file name content :: rest) s =
      travItems (some f) vd se fexts maxD incH d cp cr rest
        (f s (cp ++ "/" ++ name) (joinRel cr name) content).1 := by
  rw [travItems.eq_def]
  simp only [h, hx, hcont, Bool.false_eq_true, if_false, if_true]

/-- A hidden directory is skipped. -/
theorem travItems_dir_hidden {σ : Type}
    (vf : Option (σ → String → String → String → σ × Option Bool))
    (vd : Option (σ → String → String → σ × Option Bool))
    (se : Option (String → String → Bool)) (fexts : Option (List String))
    (maxD : Nat) (incH : Bool) (d : Nat) (cp cr name : String)
    (entries rest : List FsEntry) (s : σ)
    (h : (!incH && listStartsWith name.data ['.']) = true) :
    travItems vf vd se fexts maxD incH d cp cr (.dir name entries :: rest) s =
      travItems vf vd se fexts maxD incH d cp cr rest s := by
  rw [travItems.eq_def]
  simp only [h, if_true]

/-- With no directory callbacks, a directory past the depth bound is not
entered. -/
theorem travItems_dir_deep {σ : Type}
    (vf : Option (σ → String → String → String → σ × Option Bool))
    (fexts : Option (List String))
    (maxD : Nat) (incH : Bool) (d : Nat) (cp cr name : String)
    (entries rest : List FsEntry) (s : σ)
    (h : (!incH && listStartsWith name.data ['.']) = false)
    (hd : d + 1 > maxD) :
    travItems vf none none fexts maxD incH d cp cr (.dir name entries :: rest) s =
      travItems vf none none fexts maxD incH d cp cr rest s := by
  rw [travItems.eq_def]
  simp only [h, Bool.false_eq_true, if_false]
  simp [hd]

/-- With no directory callbacks, a directory within the depth bound is
entered before the listing continues. -/
theorem travItems_dir_enter {σ : Type}
    (vf : Option (σ → String → String → String → σ × Option Bool))
    (fexts : Option (List String))
    (maxD : Nat) (incH : Bool) (d : Nat) (cp cr name : String)
    (entries rest : List FsEntry) (s : σ)
    (h : (!incH && listStartsWith name.data ['.']) = false)
    (hd : ¬ d + 1 > maxD) :
    travItems vf none none fexts maxD incH d cp cr (.dir name entries :: rest) s =
      travItems vf none none fexts maxD incH d cp cr rest
        (travItems vf none none fexts maxD incH (d + 1) (cp ++ "/" ++ name)
          (joinRel cr name) entries s) := by
  rw [travItems.eq_def]
  simp only [h, Bool.false_eq_true, if_false]
  simp [hd]

/-- A state predicate survives the traversal when the file visitor
preserves it (the configuration `search_file_content` uses: only a
`visitFile` callback). -/
theorem travItems_preserves {σ : Type}
    (f : σ → String → String → String → σ × Option Bool)
    (fexts : Option (List String)) (maxD : Nat) (incH : Bool) (P : σ → Prop)
    (hf : ∀ s p rel c, P s → P (f s p rel c).1) :
    ∀ (depth : Nat) (curPath curRel : String) (items : List FsEntry) (s : σ),
      P s → P (travItems (some f) none none fexts maxD incH
        depth curPath curRel items s) := by
  refine travItems.induct (some f) none none fexts maxD incH
    (fun d cp cr its st => P st → P (travItems (some f) none none fexts maxD incH
      d cp cr its st)) ?_ ?_ ?_ ?_ ?_ ?_ ?_ ?_ ?_
  · intro d cp cr s hs
    rw [travItems_nil]
    exact hs
  · intro d cp cr name content rest s hhid ih hs
    rw [travItems_file_hidden _ _ _ _ _ _ _ _ _ _ _ _ _ hhid]
    exact ih hs
  · intro d cp cr name content rest s hhid hx ih hs
    rw [travItems_file_extSkip _ _ _ _ _ _ _ _ _ _ _ _ _
      (Bool.not_eq_true _ ▸ hhid) hx]
    exact ih hs
  · intro d cp cr name content rest s hhid hx hnone ih hs
    exact absurd hnone (by simp)
  · intro d cp cr name content rest s hhid hx f2 hsome r hstop hs
    cases hsome
    rw [travItems_file_stop _ _ _ _ _ _ _ _ _ _ _ _ _
      (Bool.not_eq_true _ ▸ hhid) (Bool.not_eq_true _ ▸ hx) hstop]
    exact hf _ _ _ _ hs
  · intro d cp cr name content rest s hhid hx f2 hsome r hcont ih hs
    cases hsome
    rw [travItems_file_visit _ _ _ _ _ _ _ _ _ _ _ _ _
      (Bool.not_eq_true _ ▸ hhid) (Bool.not_eq_true _ ▸ hx)
      (Bool.not_eq_true _ ▸ hcont)]
    exact ih (hf _ _ _ _ hs)
  · intro d cp cr name entries rest s hhid ih hs
    rw [travItems_dir_hidden _ _ _ _ _ _ _ _ _ _ _ _ _ hhid]
    exact ih hs
  · intro d cp cr name entries rest s hhid r hstop
    exact Bool.noConfusion hstop
  · intro d cp cr name entries rest s hhid
    dsimp only
    intro hcont ih1 ih2 ih3 hs
    by_cases hd : d + 1 > maxD
    · rw [travItems_dir_deep _ _ _ _ _ _ _ _ _ _ _
        (Bool.not_eq_true _ ▸ hhid) hd]
      rw [dif_pos hd] at ih3
      exact ih3 hs
    · rw [travItems_dir_enter _ _ _ _ _ _ _ _ _ _ _
        (Bool.not_eq_true _ ▸ hhid) hd]
      rw [dif_neg hd] at ih3
      exact ih3 (ih1 hs)

/-- C10: every entry of a `search_file_content` result list comes from a
visited file whose content has at least one line containing the search
term: its `matches` array is the first five matching lines in line order
(so at most five entries) and `total_matches` is the full matching-line
count. -/
theorem C10_search_results_shape (tree : FsEntry) (rootPath term : String)
    (fexts : Option (List String)) (maxR : Nat) (cs : Bool) :
    ∀ r ∈ searchFileContentResults tree rootPath term fexts maxR cs,
      ∃ content, ¬ content = "" ∧
        0 < (fileMatches cs term content).length ∧
        r.«matches» = (fileMatches cs term content).take 5 ∧
        r.total_matches = (fileMatches cs term content).length ∧
        r.«matches».length ≤ 5 := by
  have hpres : ∀ (results : List MFileSearchResult) (p rel c : String),
      (∀ r ∈ results, ∃ content, ¬ content = "" ∧
        0 < (fileMatches cs term content).length ∧
        r.«matches» = (fileMatches cs term content).take 5 ∧
        r.total_matches = (fileMatches cs term content).length ∧
        r.«matches».length ≤ 5) →
      ∀ r ∈ (searchVisitFile term cs maxR results p rel c).1,
        ∃ content, ¬ content = "" ∧
          0 < (fileMatches cs term content).length ∧
          r.«matches» = (fileMatches cs term content).take 5 ∧
          r.total_matches = (fileMatches cs term content).length ∧
          r.«matches».length ≤ 5 := by
    intro results p rel c hinv r hr
    unfold searchVisitFile at hr
    split at hr
    · exact hinv r hr
    · split at hr
      · exact hinv r hr
      · split at hr
        · exact hinv r hr
        · dsimp only at hr
          split at hr
          · rename_i hbin hempty hpos
            have hr2 : r ∈ results ++
                [{ file_path := p, relative_path := rel,
                   «matches» := (fileMatches cs term c).take 5,
                   total_matches := (fileMatches cs term c).length }] := hr
            rw [List.mem_append] at hr2
            rcases hr2 with hr2 | hr2
            · exact hinv r hr2
            · rw [List.mem_singleton] at hr2
              subst hr2
              refine ⟨c, hempty, by omega, rfl, rfl, ?_⟩
              simp only [List.length_take]
              omega
          · exact hinv r hr
  unfold searchFileContentResults traverseDirectory
  cases tree with
  | file n c => simp
  | dir n entries =>
    simp only [effectiveMaxDepth, effectiveIncludeHidden, Option.getD_none]
    rw [if_neg (by norm_num)]
    exact travItems_preserves _ fexts 10 false _
      (fun s p rel c hs => hpres s p rel c hs) 0 rootPath "" entries [] (by simp)

/-- A one-file tree for the content-search witness. -/
def c10Tree : FsEntry := .dir "root" [.file "f.txt" "hello\nworld\nhello"]

/-- Concrete run of the content search over `c10Tree`. -/
theorem c10_eval : searchFileContentResults c10Tree "/r" "hello" none 20 false =
    [{ file_path := "/r/f.txt", relative_path := "f.txt",
       «matches» := [{ line_number := 1, line_content := "hello", match_position := 0 },
                     { line_number := 3, line_content := "hello", match_position := 0 }],
       total_matches := 2 }] := by
  rw [show searchFileContentResults c10Tree "/r" "hello" none 20 false =
      travItems (some fun s p rel c => searchVisitFile "hello" false 20 s p rel c)
        none none none 10 false 0 "/r" ""
        [.file "f.txt" "hello\nworld\nhello"] [] from rfl]
  rw [travItems_file_visit _ _ _ _ _ _ _ _ _ _ _ _ _ (by decide) (by rfl) (by decide)]
  rw [travItems_nil]
  decide

/-- C10 witness: the single result entry of the concrete search satisfies
the per-file shape. -/
theorem C10_search_results_shape_witness :
    ∃ content, ¬ content = "" ∧
      0 < (fileMatches false "hello" content).length ∧
      ({ file_path := "/r/f.txt", relative_path := "f.txt",
         «matches» := [{ line_number := 1, line_content := "hello", match_position := 0 },
                       { line_number := 3, line_content := "hello", match_position := 0 }],
         total_matches := 2 } : MFileSearchResult).«matches» =
        (fileMatches false "hello" content).take 5 ∧
      ({ file_path := "/r/f.txt", relative_path := "f.txt",
         «matches» := [{ line_number := 1, line_content := "hello", match_position := 0 },
                       { line_number := 3, line_content := "hello", match_position := 0 }],
         total_matches := 2 } : MFileSearchResult).total_matches =
        (fileMatches false "hello" content).length ∧
      ({ file_path := "/r/f.txt", relative_path := "f.txt",
         «matches» := [{ line_number := 1, line_content := "hello", match_position := 0 },
                       { line_number := 3, line_content := "hello", match_position := 0 }],
         total_matches := 2 } : MFileSearchResult).«matches».length ≤ 5 :=
  C10_search_results_shape c10Tree "/r" "hello" none 20 false _
    (by rw [c10_eval]; exact List.mem_singleton_self _)

end AIDoc
